import Mathlib

/-!
Shallow embedding of the kuma_bot pipeline (src/main.go).

Modelling conventions:
* Go `time.Time` values are modelled as integer timestamps (`Time := Int`,
  nanoseconds); `t1.Before(t2)` is `t1 < t2`, `t1.After(t2)` is `t2 < t1`,
  and `AddDate(0, 0, -30)` is subtraction of the 30-day duration.
* Go `strings.Contains` is substring containment on the character sequence
  (`List.IsInfix` on `String.toList`).
* Network fetches and external library calls are parameters of the pure
  functions: the scraped articles, the parse outcome of each RSS feed
  (`none` models a failed fetch, which the code logs and skips), the
  goquery text extraction (`extractText`), and the success of each call to
  the posting service (a boolean oracle on the posted content).
* Side effects on external services are reified as an `Effect` trace.
* `gofeed`'s `Item.PublishedParsed` is a nullable pointer, modelled as
  `Option Time`; dereferencing a nil pointer makes the surrounding
  function return `none` (the Go program panics there).
-/

/-- Go `time.Time`, as an integer timestamp in nanoseconds. -/
abbrev Time := Int

/-- Nanoseconds in one day, the unit used to express the retention window. -/
def nsPerDay : Int := 86400000000000

/-- `PostedURLRetentionDays` constant from src/main.go. -/
def PostedURLRetentionDays : Int := 30

/-- `PostDelay` constant from src/main.go, in milliseconds. -/
def PostDelay : Nat := 200

/-- `PostedURL` record from src/main.go (ledger entry / normalized article). -/
structure PostedURL where
  url : String
  title : String
  description : String
  publishedAt : Time
  postedAt : Time
deriving Repr, DecidableEq

/-- `PrefectureCount` record from src/main.go.  The count is an `Int`,
matching Go's `int` (the formatting loop compares counts against the
sentinel `-1`). -/
structure PrefectureCount where
  prefecture : String
  count : Int
deriving Repr, DecidableEq

/-- `RSSConfig` record from src/main.go. -/
structure RSSConfig where
  includeKeywords : List String
  excludeKeywords : List String
  rssSources : List String
deriving Repr, DecidableEq

/-- A parsed RSS feed item (the fields of `gofeed.Item` that
src/main.go reads).  `publishedParsed` is `gofeed`'s nullable
`*time.Time`. -/
structure RSSItem where
  title : String
  link : String
  description : String
  publishedParsed : Option Time
deriving Repr, DecidableEq

/-- A Mastodon status (the fields of `mastodon.Status` that
src/main.go reads). -/
structure Status where
  id : String
  createdAt : Time
  content : String
deriving Repr, DecidableEq

instance : Inhabited Status := ⟨⟨"", 0, ""⟩⟩

/-- Go `strings.Contains(s, sub)`: `sub` occurs in `s` as a contiguous
substring (case-sensitive, no tokenization). -/
def strContains (s sub : String) : Bool :=
  decide (sub.toList <:+: s.toList)

/-- `cleanupOldURLs` from src/main.go.  The current instant is a
parameter (`time.Now()` in the code); `cutoffTime` is `now` minus the
30-day retention window and an entry survives iff its `PostedAt` is
strictly after the cutoff (`posted.PostedAt.After(cutoffTime)`). -/
def cleanupOldURLs (now : Time) (existingURLs : List PostedURL) : List PostedURL :=
  let cutoffTime := now - PostedURLRetentionDays * nsPerDay
  existingURLs.filter (fun posted => cutoffTime < posted.postedAt)

/-- `isBearRelatedNews` from src/main.go: reject when any exclude keyword
occurs in `title ++ " " ++ description`; otherwise accept iff some include
keyword occurs. -/
def isBearRelatedNews (title description : String) (rssConfig : RSSConfig) : Bool :=
  let text := title ++ " " ++ description
  if rssConfig.excludeKeywords.any (fun keyword => strContains text keyword) then
    false
  else
    rssConfig.includeKeywords.any (fun keyword => strContains text keyword)

/-- Claim C2 counterexample input: a ledger entry whose `posted_at` is
exactly 30 days before the current instant. -/
def boundaryEntry : PostedURL :=
  { url := "https://example.com/a", title := "t", description := "d",
    publishedAt := 0, postedAt := 0 }

/-- Description building for RSS items, from `processRSSNews` in
src/main.go: markup stripping (`goquery`'s text extraction, an external
library call modelled by the `extractText` parameter), trimming, a link
glyph prefix and a trailing ellipsis; an empty feed description stays
empty. -/
def buildRSSDescription (extractText : String → String) (d : String) : String :=
  if d = "" then "" else "\n\n🔗 " ++ (extractText d).trim ++ "…"

/-- The item loop of `processRSSNews` from src/main.go, with the running
dedup map passed as explicit state.  Skips items with an empty link, items
whose link is already claimed, and irrelevant items; an accepted item's
`*item.PublishedParsed` dereference is modelled by the `match`: `none`
(nil pointer) makes the whole computation fail, as the Go program panics
there. -/
def processRSSItems (extractText : String → String) (rssConfig : RSSConfig) :
    List RSSItem → List String → List PostedURL → Option (List String × List PostedURL)
  | [], existingURLMap, allArticles => some (existingURLMap, allArticles)
  | item :: rest, existingURLMap, allArticles =>
    if item.link = "" then
      processRSSItems extractText rssConfig rest existingURLMap allArticles
    else if existingURLMap.contains item.link then
      processRSSItems extractText rssConfig rest existingURLMap allArticles
    else
      let description := buildRSSDescription extractText item.description
      if isBearRelatedNews item.title description rssConfig then
        match item.publishedParsed with
        | none => none
        | some ts =>
          let article : PostedURL :=
            { url := item.link, title := item.title, description := description,
              publishedAt := ts, postedAt := 0 }
          processRSSItems extractText rssConfig rest (item.link :: existingURLMap)
            (allArticles ++ [article])
      else
        processRSSItems extractText rssConfig rest existingURLMap allArticles

/-- The feed loop of `processRSSNews` from src/main.go: each source's
parse outcome is a parameter (`none` models a fetch/parse error, which is
logged and skipped without aborting the others). -/
def processRSSFeeds (extractText : String → String) (rssConfig : RSSConfig) :
    List (Option (List RSSItem)) → List String → List PostedURL →
      Option (List String × List PostedURL)
  | [], existingURLMap, allArticles => some (existingURLMap, allArticles)
  | none :: rest, existingURLMap, allArticles =>
    processRSSFeeds extractText rssConfig rest existingURLMap allArticles
  | some items :: rest, existingURLMap, allArticles =>
    match processRSSItems extractText rssConfig items existingURLMap allArticles with
    | none => none
    | some (map2, acc2) => processRSSFeeds extractText rssConfig rest map2 acc2

/-- The comparison used by the final `sort.Slice` calls in src/main.go:
the reflexive closure of the strict `PublishedAt.Before` comparator.
`sort.Slice` guarantees a permutation sorted with respect to this
relation; it is unstable, so `List.insertionSort` is one admissible
outcome. -/
def pubLe (a b : PostedURL) : Prop := a.publishedAt ≤ b.publishedAt

instance : DecidableRel pubLe :=
  fun a b => inferInstanceAs (Decidable (a.publishedAt ≤ b.publishedAt))

instance : IsTotal PostedURL pubLe :=
  ⟨fun a b => le_total a.publishedAt b.publishedAt⟩

instance : IsTrans PostedURL pubLe :=
  ⟨fun _ _ _ h1 h2 => le_trans h1 h2⟩

/-- `processRSSNews` from src/main.go: run the feed loop against the
ledger-derived dedup map, then sort all accepted articles by
`published_at` ascending. -/
def processRSSNews (extractText : String → String) (existingURLMap : List String)
    (rssConfig : RSSConfig) (feeds : List (Option (List RSSItem))) :
    Option (List PostedURL) :=
  match processRSSFeeds extractText rssConfig feeds existingURLMap [] with
  | none => none
  | some (_, allArticles) => some (List.insertionSort pubLe allArticles)

/-- `processKumaNews` from src/main.go, pure part: the scraped articles
(network fetch) are a parameter; the function drops articles already in
the dedup map and sorts the remainder by `published_at` ascending. -/
def processKumaNews (existingURLMap : List String) (allArticles : List PostedURL) :
    List PostedURL :=
  List.insertionSort pubLe
    (allArticles.filter (fun article => !(existingURLMap.contains article.url)))

/-- A relevant feed item with a nonempty, fresh link but no parsed
publication date. -/
def noDateItem : RSSItem :=
  { title := "クマが出没", link := "https://example.com/rss1", description := "",
    publishedParsed := none }

/-- A relevant feed item that does carry a parsed publication date. -/
def datedItem : RSSItem :=
  { title := "クマが出没", link := "https://example.com/rss2", description := "",
    publishedParsed := some 5 }

/-- A rule set accepting texts that mention クマ. -/
def sampleRSSConfig : RSSConfig :=
  { includeKeywords := ["クマ"], excludeKeywords := [],
    rssSources := ["https://feed.example.com"] }

/-- Calls issued to external services (posting service, blob store),
reified as a trace.  A `publish`/`saveLedger`/`pin`/`unpin` element means
the corresponding external call is issued; dry-run no-ops produce no
element. -/
inductive Effect where
  | publish (content : String)
  | sleep (ms : Nat)
  | saveLedger (postedURLs : List PostedURL)
  | unpin (id : String)
  | pin (id : String)
deriving Repr, DecidableEq

/-- `KumaPostTemplate` from src/main.go, applied to its three
`%s` arguments. -/
def KumaPostTemplate (title url description : String) : String :=
  "🐻 " ++ title ++ "\n\n🔗 " ++ url ++ "\n\n📍 " ++ description ++ "\n\n#クマ出没情報"

/-- `RSSNewsTemplate` from src/main.go, applied to its three
`%s` arguments (title, URL, description). -/
def RSSNewsTemplate (title url description : String) : String :=
  "📰 クマ関連ニュース：" ++ title ++ "\n\n" ++ url ++ description ++ "\n\n#クマ関連ニュース"

/-- `SummaryPostTemplate` from src/main.go, applied to its arguments.
The formatted date string is a parameter (`date.Format` in the code). -/
def SummaryPostTemplate (dateStr : String) (totalPosts : Nat) (ranking : String) : String :=
  "🐻 " ++ dateStr ++ "のクマ出没情報集計（全" ++ toString totalPosts ++
    "件）\n※あくまで出没情報記事数の集計なので実際の出没数とは限りません\n\n📍 都道府県別ランキング:\n" ++
    ranking ++ "\n\n#クマ出没情報"

/-- The content built by `postSingleArticle` in src/main.go: RSS posts
longer than 500 runes (`len([]rune(post)) > 500`; `String.length` counts
code points, as `[]rune` does) are re-rendered with an empty description
argument. -/
def postSingleArticleContent (article : PostedURL) (isRss : Bool) : String :=
  if isRss then
    let post := RSSNewsTemplate article.title article.url article.description
    if 500 < post.length then RSSNewsTemplate article.title article.url "" else post
  else
    KumaPostTemplate article.title article.url article.description

/-- `postToMastodonWithContent` from src/main.go, as the external calls it
issues: with `DRY_RUN=1` it only logs and issues nothing. -/
def postToMastodonWithContent (dryRun : Bool) (content : String) : List Effect :=
  if dryRun then [] else [Effect.publish content]

/-- `postSingleArticle` from src/main.go: the issued calls and the success
flag.  In dry-run mode the call always succeeds (the code returns a dummy
status); otherwise success is the posting-service oracle `postOk` on the
posted content. -/
def postSingleArticle (dryRun : Bool) (postOk : String → Bool) (article : PostedURL)
    (isRss : Bool) : List Effect × Bool :=
  let post := postSingleArticleContent article isRss
  (postToMastodonWithContent dryRun post, dryRun || postOk post)

/-- `postArticlesByType` from src/main.go: posts each article in order,
sleeping `PostDelay` after every attempt (the `time.Sleep` in the loop
body is unconditional), collecting successfully posted articles with
`PostedAt` set to the current instant. -/
def postArticlesByType (dryRun : Bool) (postOk : String → Bool) (now : Time) :
    List PostedURL → Bool → List Effect × List PostedURL
  | [], _ => ([], [])
  | article :: rest, isRss =>
    let step := postSingleArticle dryRun postOk article isRss
    let next := postArticlesByType dryRun postOk now rest isRss
    (step.1 ++ Effect.sleep PostDelay :: next.1,
      if step.2 then { article with postedAt := now } :: next.2 else next.2)

/-- `postToMastodon` from src/main.go: all scraped-source articles are
posted first, then all feed-sourced articles. -/
def postToMastodon (dryRun : Bool) (postOk : String → Bool) (now : Time)
    (kumaArticles rssArticles : List PostedURL) : List Effect × List PostedURL :=
  let kuma := postArticlesByType dryRun postOk now kumaArticles false
  let rss := postArticlesByType dryRun postOk now rssArticles true
  (kuma.1 ++ rss.1, kuma.2 ++ rss.2)

/-- `savePostedURLs` from src/main.go: with `DRY_RUN=1` it only logs;
otherwise it overwrites the ledger document with the given list. -/
def savePostedURLs (dryRun : Bool) (postedURLs : List PostedURL) : List Effect :=
  if dryRun then [] else [Effect.saveLedger postedURLs]

/-- The comparison of the `sort.Slice` in `pinSummaryPosts`: the
reflexive closure of the strict `CreatedAt.Before` comparator. -/
def createdLe (a b : Status) : Prop := a.createdAt ≤ b.createdAt

instance : DecidableRel createdLe :=
  fun a b => inferInstanceAs (Decidable (a.createdAt ≤ b.createdAt))

instance : IsTotal Status createdLe :=
  ⟨fun a b => le_total a.createdAt b.createdAt⟩

instance : IsTrans Status createdLe :=
  ⟨fun _ _ _ h1 h2 => le_trans h1 h2⟩

/-- `pinSummaryPosts` from src/main.go: with 5 or more pinned statuses,
sort by creation time ascending and unpin the first (oldest); if the unpin
call fails (`unpinOk = false`) the function returns early and the pin is
never issued; otherwise pin the new status.  Note there is no dry-run
guard in this function. -/
def pinSummaryPosts (unpinOk : Bool) (pinnedStatuses : List Status)
    (newStatusID : String) : List Effect :=
  if 5 ≤ pinnedStatuses.length then
    let sorted := List.insertionSort createdLe pinnedStatuses
    Effect.unpin sorted.headI.id :: (if unpinOk then [Effect.pin newStatusID] else [])
  else
    [Effect.pin newStatusID]

/-- The projection of a trace onto the contents of its publish calls. -/
def publishContents (effects : List Effect) : List String :=
  effects.filterMap (fun e =>
    match e with
    | Effect.publish content => some content
    | _ => none)

/-- The projection of a trace onto the documents written to the ledger. -/
def saveTargets (effects : List Effect) : List (List PostedURL) :=
  effects.filterMap (fun e =>
    match e with
    | Effect.saveLedger postedURLs => some postedURLs
    | _ => none)

/-- The normal-mode ledger flow of `handleKumaBotRequest` in src/main.go:
load (parameter `loaded`), prune, build the dedup set, run both source
adapters, publish, and save the pruned survivors plus the successfully
posted articles.  The result is the run's effect trace and the content of
the persisted ledger document after the run (unchanged when no new
article was found — no save call happens — or when dry-run skips the
write). -/
def runNormalMode (dryRun : Bool) (postOk : String → Bool) (now : Time)
    (loaded scraped : List PostedURL) (extractText : String → String)
    (rssConfig : RSSConfig) (feeds : List (Option (List RSSItem))) :
    Option (List Effect × List PostedURL) :=
  let existingURLs := cleanupOldURLs now loaded
  let existingURLMap := existingURLs.map PostedURL.url
  let kumaArticles := processKumaNews existingURLMap scraped
  match processRSSNews extractText existingURLMap rssConfig feeds with
  | none => none
  | some rssArticles =>
    if 0 < kumaArticles.length ∨ 0 < rssArticles.length then
      let posted := postToMastodon dryRun postOk now kumaArticles rssArticles
      some (posted.1 ++ savePostedURLs dryRun (existingURLs ++ posted.2),
        if dryRun then loaded else existingURLs ++ posted.2)
    else
      some ([], loaded)

/-- The 47 prefecture names from src/main.go, in declaration order. -/
def prefectures : List String :=
  ["北海道", "青森県", "岩手県", "宮城県", "秋田県", "山形県", "福島県",
   "茨城県", "栃木県", "群馬県", "埼玉県", "千葉県", "東京都", "神奈川県",
   "新潟県", "富山県", "石川県", "福井県", "山梨県", "長野県", "岐阜県",
   "静岡県", "愛知県", "三重県", "滋賀県", "京都府", "大阪府", "兵庫県",
   "奈良県", "和歌山県", "鳥取県", "島根県", "岡山県", "広島県", "山口県",
   "徳島県", "香川県", "愛媛県", "高知県", "福岡県", "佐賀県", "長崎県",
   "熊本県", "大分県", "宮崎県", "鹿児島県", "沖縄県"]

/-- `OtherPrefecture` constant from src/main.go (the unclassified
bucket). -/
def OtherPrefecture : String := "その他"

/-- `extractPrefecture` from src/main.go: the first prefecture in
declaration order contained in the text, or `""`. -/
def extractPrefecture (text : String) : String :=
  match prefectures.find? (fun prefecture => strContains text prefecture) with
  | some prefecture => prefecture
  | none => ""

/-- One increment of Go's `prefectureCountMap[prefecture]++`, on an
association list in first-insertion order. -/
def tallyInc : List PrefectureCount → String → List PrefectureCount
  | [], prefecture => [{ prefecture := prefecture, count := 1 }]
  | pc :: rest, prefecture =>
    if pc.prefecture = prefecture then { pc with count := pc.count + 1 } :: rest
    else pc :: tallyInc rest prefecture

/-- The comparison of the `sort.Slice` in `aggregatePrefectures`: the
reflexive closure of the strict comparator "count descending, ties broken
by name ascending" (`¬ less b a` of the Go closure: `b.count < a.count`,
or equal counts and `a.prefecture ≤ b.prefecture`). -/
def statLe (a b : PrefectureCount) : Prop :=
  b.count < a.count ∨ (a.count = b.count ∧ a.prefecture ≤ b.prefecture)

instance : DecidableRel statLe :=
  fun a b =>
    inferInstanceAs (Decidable (b.count < a.count ∨
      (a.count = b.count ∧ a.prefecture ≤ b.prefecture)))

instance : IsTotal PrefectureCount statLe :=
  ⟨fun a b => by
    rcases lt_trichotomy a.count b.count with h | h | h
    · exact Or.inr (Or.inl h)
    · rcases le_total a.prefecture b.prefecture with hn | hn
      · exact Or.inl (Or.inr ⟨h, hn⟩)
      · exact Or.inr (Or.inr ⟨h.symm, hn⟩)
    · exact Or.inl (Or.inl h)⟩

instance : IsTrans PrefectureCount statLe :=
  ⟨fun a b c hab hbc => by
    rcases hab with h1 | ⟨h1e, h1n⟩
    · rcases hbc with h2 | ⟨h2e, h2n⟩
      · exact Or.inl (lt_trans h2 h1)
      · exact Or.inl (h2e ▸ h1)
    · rcases hbc with h2 | ⟨h2e, h2n⟩
      · exact Or.inl (h1e ▸ h2)
      · exact Or.inr ⟨h1e.trans h2e, le_trans h1n h2n⟩⟩

/-- `aggregatePrefectures` from src/main.go, starting from the per-post
location strings (the regex submatch following the 📍 marker of each post
whose content matched; Go's `FindStringSubmatch` is an external regex
engine, so the extracted location of each matched post is the input).
Tallies classified posts per prefecture, counts the rest as unclassified,
sorts by count descending with name-ascending tie break, and appends the
unclassified bucket last when non-empty.  Go map iteration order is
unspecified and `sort.Slice` is unstable; `mergeSort` over the
first-insertion-order tally is one admissible outcome, and the comparator
is total so the sorted list is unique anyway. -/
def aggregateStep (st : List PrefectureCount × Int) (rawLocation : String) :
    List PrefectureCount × Int :=
  let location := rawLocation.trim
  let prefecture := extractPrefecture location
  if prefecture = "" then (st.1, st.2 + 1) else (tallyInc st.1 prefecture, st.2)

/-- The sorted tally with the unclassified bucket appended (see
`aggregateStep` for the per-post step). -/
def aggregatePrefectures (locations : List String) : List PrefectureCount :=
  let tallied := locations.foldl aggregateStep ([], 0)
  let results := List.insertionSort statLe tallied.1
  if 0 < tallied.2 then
    results ++ [{ prefecture := OtherPrefecture, count := tallied.2 }]
  else results

/-- Go's `%2d` formatting: right-aligned in width 2. -/
def fmtRank (rank : Nat) : String :=
  if rank < 10 then " " ++ toString rank else toString rank

/-- The loop of `formatPrefectureStats` from src/main.go: state is the
built lines, `currentRank` and `prevCount` (sentinel `-1`); the
unclassified bucket gets an unnumbered line and leaves the rank state
untouched; a strictly smaller count resumes numbering at
`len(lines) + 1`. -/
def formatStatsLoop : List PrefectureCount → List String → Nat → Int → List String
  | [], lines, _, _ => lines
  | stat :: rest, lines, currentRank, prevCount =>
    if stat.prefecture = OtherPrefecture then
      formatStatsLoop rest
        (lines ++ ["    " ++ stat.prefecture ++ "：" ++ toString stat.count ++ "件"])
        currentRank prevCount
    else
      let newRank := if prevCount ≠ -1 ∧ stat.count < prevCount then lines.length + 1
        else currentRank
      formatStatsLoop rest
        (lines ++ [fmtRank newRank ++ ". " ++ stat.prefecture ++ "：" ++
          toString stat.count ++ "件"])
        newRank stat.count

/-- `formatPrefectureStats` from src/main.go. -/
def formatPrefectureStats (stats : List PrefectureCount) : String :=
  String.intercalate "\n" (formatStatsLoop stats [] 1 (-1))

/-- The rank numbers assigned by the `formatPrefectureStats` loop, kept
alongside each entry (`none` for the unnumbered unclassified line); the
position counter `pos` plays the role of `len(lines)`. -/
def rankAnnotate : List PrefectureCount → Nat → Nat → Int → List (Option Nat × PrefectureCount)
  | [], _, _, _ => []
  | stat :: rest, pos, currentRank, prevCount =>
    if stat.prefecture = OtherPrefecture then
      (none, stat) :: rankAnnotate rest (pos + 1) currentRank prevCount
    else
      let newRank := if prevCount ≠ -1 ∧ stat.count < prevCount then pos + 1
        else currentRank
      (some newRank, stat) :: rankAnnotate rest (pos + 1) newRank stat.count

/-- Rendering of one annotated entry as the line built by the
`formatPrefectureStats` loop. -/
def renderRankedLine : Option Nat × PrefectureCount → String
  | (some rank, stat) =>
    fmtRank rank ++ ". " ++ stat.prefecture ++ "：" ++ toString stat.count ++ "件"
  | (none, stat) => "    " ++ stat.prefecture ++ "：" ++ toString stat.count ++ "件"

/-- Modelled from the spec (section 4.7 Ranking rule): the competition
rank of an entry is one plus the number of entries of the ranked list with
a strictly greater count. -/
def competitionRank (ranked : List PrefectureCount) (stat : PrefectureCount) : Nat :=
  1 + ranked.countP (fun t => stat.count < t.count)

/-- `postPrefectureSummary` from src/main.go: format the summary, publish
it (`postToMastodonWithContent`), then hand the resulting status id to
`pinSummaryPosts` (in dry-run mode the dummy id `"dry-run"`); when the
publish call itself fails the function returns before pinning; pin errors
are only logged. -/
def postPrefectureSummary (dryRun postOk unpinOk : Bool) (newStatusID : String)
    (pinnedStatuses : List Status) (stats : List PrefectureCount) (totalPosts : Nat)
    (dateStr : String) : List Effect :=
  let postContent := SummaryPostTemplate dateStr totalPosts (formatPrefectureStats stats)
  postToMastodonWithContent dryRun postContent ++
    (if dryRun || postOk then
      pinSummaryPosts unpinOk pinnedStatuses (if dryRun then "dry-run" else newStatusID)
    else [])

/-- A scraped article published later (instant 2) than the feed article
below. -/
def kumaLateArticle : PostedURL :=
  { url := "https://example.com/kuma", title := "クマ出没",
    description := "北海道 X 11/1 12:00", publishedAt := 2, postedAt := 0 }

/-- A relevant feed item published earlier (instant 1) than the scraped
article above. -/
def earlyFeedItem : RSSItem :=
  { title := "クマが出た", link := "https://example.com/rss-early", description := "",
    publishedParsed := some 1 }

/-- The article record the feed adapter builds from `earlyFeedItem`. -/
def rssEarlyArticle : PostedURL :=
  { url := "https://example.com/rss-early", title := "クマが出た", description := "",
    publishedAt := 1, postedAt := 0 }

/-- A scraped article that the scrape happens to list twice. -/
def dupArticle : PostedURL :=
  { url := "https://example.com/dup", title := "クマ", description := "",
    publishedAt := 1, postedAt := 0 }

/-- A single article for exercising the posting loop. -/
def soloArticle : PostedURL :=
  { url := "https://example.com/solo", title := "クマ目撃", description := "青森県 Y 11/2 9:00",
    publishedAt := 3, postedAt := 0 }

/-- A 600-rune title, exceeding the 500-rune post bound on its own. -/
def longTitle : String := String.mk (List.replicate 600 'a')

/-- A feed article whose title alone makes even the excerpt-free rendering
exceed 500 runes. -/
def hugeTitleArticle : PostedURL :=
  { url := "https://example.com/x", title := longTitle, description := "ｄ",
    publishedAt := 0, postedAt := 0 }

/-- A feed article whose excerpt pushes the rendered post to exactly 520
runes while the excerpt-free rendering is 54 runes. -/
def excerpt520Article : PostedURL :=
  { url := "https://example.com/news", title := "クマ目撃情報",
    description := "\n\n🔗 " ++ String.mk (List.replicate 461 'あ') ++ "…",
    publishedAt := 0, postedAt := 0 }

/-- Five pinned statuses with distinct creation times; `"p2"` is the
oldest. -/
def pinnedFive : List Status :=
  [⟨"p1", 50, ""⟩, ⟨"p2", 10, ""⟩, ⟨"p3", 30, ""⟩, ⟨"p4", 20, ""⟩, ⟨"p5", 40, ""⟩]

/-- All links carried by the successfully parsed feeds of a run. -/
def feedLinks (feeds : List (Option (List RSSItem))) : List String :=
  ((feeds.filterMap id).flatten).map RSSItem.link

/-- A concrete run with one scraped article (published at instant 2) and
one feed article (published at instant 1). -/
def sampleRunC5 : Option (List Effect × List PostedURL) :=
  runNormalMode false (fun _ => true) 100 [] [kumaLateArticle] id sampleRSSConfig
    [some [earlyFeedItem]]

/-- Claim C2, counterexample: with `now` exactly 30 days after the entry's
`posted_at`, the entry's `posted_at` equals `now - 30d` (so it is *not*
strictly older than the cutoff and the claim says it is retained), yet
`cleanupOldURLs` drops it: `PostedAt.After(cutoff)` is strict. -/
theorem cleanupOldURLs_boundary_dropped :
    boundaryEntry.postedAt = 30 * nsPerDay - PostedURLRetentionDays * nsPerDay ∧
    cleanupOldURLs (30 * nsPerDay) [boundaryEntry] = [] := by
  constructor
  · decide
  · decide

/-- Claim C2 (amended): `cleanupOldURLs` returns exactly the entries whose
`posted_at` is strictly newer than `now - 30d` (a boundary entry at exactly
30 days is dropped, not retained), and it only removes entries — the result
is a sublist of the input, so no entry is added or modified. -/
theorem cleanupOldURLs_spec (now : Time) (existingURLs : List PostedURL) :
    (∀ e, e ∈ cleanupOldURLs now existingURLs ↔
      e ∈ existingURLs ∧ now - PostedURLRetentionDays * nsPerDay < e.postedAt) ∧
    (cleanupOldURLs now existingURLs).Sublist existingURLs ∧
    (∀ e ∈ existingURLs, e.postedAt = now - PostedURLRetentionDays * nsPerDay →
      e ∉ cleanupOldURLs now existingURLs) := by
  refine ⟨?_, ?_, ?_⟩
  · intro e
    simp [cleanupOldURLs, List.mem_filter]
  · exact List.filter_sublist _
  · intro e _ heq hmem
    simp only [cleanupOldURLs, List.mem_filter, decide_eq_true_eq] at hmem
    rw [heq] at hmem
    exact lt_irrefl _ hmem.2

/-- Claim C2 amended-claim witness at a concrete input. -/
theorem cleanupOldURLs_spec_witness :
    boundaryEntry ∈ [boundaryEntry] ∧
    boundaryEntry.postedAt = 30 * nsPerDay - PostedURLRetentionDays * nsPerDay ∧
    boundaryEntry ∉ cleanupOldURLs (30 * nsPerDay) [boundaryEntry] := by
  refine ⟨by decide, by decide, ?_⟩
  exact (cleanupOldURLs_spec (30 * nsPerDay) [boundaryEntry]).2.2 boundaryEntry
    (by decide) (by decide)

/-- `strContains` decides substring containment on the character level. -/
theorem strContains_iff (s sub : String) :
    strContains s sub = true ↔ sub.toList <:+: s.toList := by
  simp [strContains]

/-- `List.any` over `strContains` decides existence of a contained keyword. -/
theorem any_strContains_iff (text : String) (ks : List String) :
    ks.any (fun keyword => strContains text keyword) = true ↔
      ∃ k ∈ ks, k.toList <:+: text.toList := by
  constructor
  · intro h
    obtain ⟨k, hk, hck⟩ := List.any_eq_true.mp h
    exact ⟨k, hk, (strContains_iff text k).mp hck⟩
  · rintro ⟨k, hk, hck⟩
    exact List.any_eq_true.mpr ⟨k, hk, (strContains_iff text k).mpr hck⟩

/-- Claim C4: the relevance filter rejects whenever some exclude keyword is
a substring of `title ++ " " ++ description` (even if an include keyword
also occurs); otherwise it accepts iff some include keyword is a
substring; with both keyword lists empty everything is rejected. -/
theorem isBearRelatedNews_spec (title description : String) (rssConfig : RSSConfig)
    (srcs : List String) :
    (isBearRelatedNews title description rssConfig = true ↔
      (¬ ∃ k ∈ rssConfig.excludeKeywords,
          k.toList <:+: (title ++ " " ++ description).toList) ∧
      (∃ k ∈ rssConfig.includeKeywords,
          k.toList <:+: (title ++ " " ++ description).toList)) ∧
    ((∃ k ∈ rssConfig.excludeKeywords,
        k.toList <:+: (title ++ " " ++ description).toList) →
      isBearRelatedNews title description rssConfig = false) ∧
    isBearRelatedNews title description ⟨[], [], srcs⟩ = false := by
  refine ⟨?_, ?_, ?_⟩
  · by_cases hex : rssConfig.excludeKeywords.any
        (fun keyword => strContains (title ++ " " ++ description) keyword) = true
    · simp only [isBearRelatedNews, hex, if_true]
      constructor
      · intro h
        exact absurd h (by simp)
      · rintro ⟨hno, -⟩
        exact absurd ((any_strContains_iff _ _).mp hex) hno
    · rw [Bool.not_eq_true] at hex
      simp only [isBearRelatedNews, hex, Bool.false_eq_true, if_false]
      constructor
      · intro h
        refine ⟨?_, (any_strContains_iff _ _).mp h⟩
        intro hcon
        have := (any_strContains_iff _ _).mpr hcon
        rw [hex] at this
        exact Bool.false_ne_true this
      · rintro ⟨-, hinc⟩
        exact (any_strContains_iff _ _).mpr hinc
  · intro hcon
    have hex := (any_strContains_iff (title ++ " " ++ description)
      rssConfig.excludeKeywords).mpr hcon
    simp [isBearRelatedNews, hex]
  · simp [isBearRelatedNews]

/-- Claim C4 witness at concrete inputs: a text containing both an include
and an exclude keyword is rejected. -/
theorem isBearRelatedNews_spec_witness :
    isBearRelatedNews "クマ出没 ゲーム" "" ⟨["クマ"], ["ゲーム"], []⟩ = false := by
  exact (isBearRelatedNews_spec "クマ出没 ゲーム" "" ⟨["クマ"], ["ゲーム"], []⟩ []).2.1
    ⟨"ゲーム", by decide, by decide⟩

/-- An accepted item (nonempty link, relevant) reaching the
`*item.PublishedParsed` dereference never fails when every such item
carries a parsed date. -/
theorem processRSSItems_isSome (extractText : String → String) (rssConfig : RSSConfig) :
    ∀ (items : List RSSItem) (existingURLMap : List String) (allArticles : List PostedURL),
    (∀ item ∈ items, item.link ≠ "" →
      isBearRelatedNews item.title (buildRSSDescription extractText item.description)
        rssConfig = true →
      item.publishedParsed.isSome) →
    (processRSSItems extractText rssConfig items existingURLMap allArticles).isSome := by
  intro items
  induction items with
  | nil => intro m acc h; simp [processRSSItems]
  | cons item rest ih =>
    intro m acc h
    have hrest := fun m' acc' =>
      ih m' acc' (fun i hi => h i (List.mem_cons_of_mem _ hi))
    by_cases hlink : item.link = ""
    · simpa [processRSSItems, hlink] using hrest m acc
    · by_cases hdup : item.link ∈ m
      · simpa [processRSSItems, hlink, hdup] using hrest m acc
      · by_cases hrel : isBearRelatedNews item.title
            (buildRSSDescription extractText item.description) rssConfig = true
        · have hsome := h item (List.mem_cons_self _ _) hlink hrel
          match hpp : item.publishedParsed with
          | none => rw [hpp] at hsome; exact absurd hsome (by simp)
          | some ts =>
            simpa [processRSSItems, hlink, hdup, hrel, hpp] using hrest _ _
        · simpa [processRSSItems, hlink, hdup, hrel] using hrest m acc

/-- Totality of the feed loop under the parsed-date precondition. -/
theorem processRSSFeeds_isSome (extractText : String → String) (rssConfig : RSSConfig) :
    ∀ (feeds : List (Option (List RSSItem))) (existingURLMap : List String)
      (allArticles : List PostedURL),
    (∀ feedItems, some feedItems ∈ feeds → ∀ item ∈ feedItems, item.link ≠ "" →
      isBearRelatedNews item.title (buildRSSDescription extractText item.description)
        rssConfig = true →
      item.publishedParsed.isSome) →
    (processRSSFeeds extractText rssConfig feeds existingURLMap allArticles).isSome := by
  intro feeds
  induction feeds with
  | nil => intro m acc h; simp [processRSSFeeds]
  | cons feed rest ih =>
    intro m acc h
    have hrest : ∀ feedItems, some feedItems ∈ rest → ∀ item ∈ feedItems, item.link ≠ "" →
        isBearRelatedNews item.title (buildRSSDescription extractText item.description)
          rssConfig = true →
        item.publishedParsed.isSome :=
      fun fi hfi => h fi (List.mem_cons_of_mem _ hfi)
    match feed with
    | none => simpa [processRSSFeeds] using ih m acc hrest
    | some items =>
      have hitems := processRSSItems_isSome extractText rssConfig items m acc
        (h items (List.mem_cons_self _ _))
      obtain ⟨⟨map2, acc2⟩, hres⟩ := Option.isSome_iff_exists.mp hitems
      simpa [processRSSFeeds, hres] using ih map2 acc2 hrest

/-- Claim C10: the feed adapter is total whenever every entry with a
nonempty link that passes the relevance filter carries a parsed
publication date; and an accepted entry without one makes the whole
computation fail (`none`, the nil-pointer panic) instead of being skipped:
witnessed by a concrete relevant, fresh, dateless item. -/
theorem processRSSNews_publishedParsed (extractText : String → String)
    (existingURLMap : List String) (rssConfig : RSSConfig)
    (feeds : List (Option (List RSSItem))) :
    ((∀ feedItems, some feedItems ∈ feeds → ∀ item ∈ feedItems, item.link ≠ "" →
        isBearRelatedNews item.title (buildRSSDescription extractText item.description)
          rssConfig = true →
        item.publishedParsed.isSome) →
      (processRSSNews extractText existingURLMap rssConfig feeds).isSome) ∧
    processRSSNews id [] sampleRSSConfig [some [noDateItem]] = none := by
  constructor
  · intro h
    have := processRSSFeeds_isSome extractText rssConfig feeds existingURLMap [] h
    obtain ⟨⟨map2, acc2⟩, hres⟩ := Option.isSome_iff_exists.mp this
    simp [processRSSNews, hres]
  · rfl

/-- Claim C10 witness: with every accepted item dated, the adapter
succeeds on a concrete feed list. -/
theorem processRSSNews_publishedParsed_witness :
    (processRSSNews id [] sampleRSSConfig [some [datedItem]]).isSome := by
  refine (processRSSNews_publishedParsed id [] sampleRSSConfig [some [datedItem]]).1 ?_
  intro feedItems hmem item hitem
  simp only [List.mem_singleton, Option.some.injEq] at hmem
  subst hmem
  simp only [List.mem_singleton] at hitem
  subst hitem
  intro _ _
  rfl

/-- The non-dry posting loop issues, for each article in order, one
publish call followed by one `PostDelay` sleep — also after the last
article. -/
theorem postArticlesByType_trace (postOk : String → Bool) (now : Time)
    (articles : List PostedURL) (isRss : Bool) :
    (postArticlesByType false postOk now articles isRss).1 =
      articles.flatMap (fun article =>
        [Effect.publish (postSingleArticleContent article isRss),
         Effect.sleep PostDelay]) := by
  induction articles with
  | nil => rfl
  | cons a rest ih =>
    simp [postArticlesByType, postSingleArticle, postToMastodonWithContent, ih]

/-- Claim C7, counterexample: in a run publishing a single article, a
`PostDelay` sleep is the last issued effect — a delay does follow the
final publish call, contradicting the claim. -/
theorem postDelay_trailing_cex :
    (postArticlesByType false (fun _ => true) 0 [soloArticle] false).1 =
      [Effect.publish (postSingleArticleContent soloArticle false),
       Effect.sleep PostDelay] ∧
    ((postArticlesByType false (fun _ => true) 0 [soloArticle] false).1).getLast? =
      some (Effect.sleep PostDelay) := ⟨rfl, rfl⟩

/-- Claim C7 (amended): a fixed 200ms delay is issued after every publish
call — between successive publishes and also after the final one (the
`time.Sleep` in the loop body is unconditional). -/
theorem postArticlesByType_delay_amended (postOk : String → Bool) (now : Time)
    (articles : List PostedURL) (isRss : Bool) :
    (postArticlesByType false postOk now articles isRss).1 =
      articles.flatMap (fun article =>
        [Effect.publish (postSingleArticleContent article isRss),
         Effect.sleep PostDelay]) ∧
    (articles ≠ [] →
      ((postArticlesByType false postOk now articles isRss).1).getLast? =
        some (Effect.sleep PostDelay)) := by
  refine ⟨postArticlesByType_trace postOk now articles isRss, ?_⟩
  intro hne
  rw [postArticlesByType_trace postOk now articles isRss]
  induction articles with
  | nil => exact absurd rfl hne
  | cons a rest ih =>
    cases rest with
    | nil => rfl
    | cons b rest2 =>
      rw [List.flatMap_cons, List.getLast?_append, ih (by simp)]
      rfl

/-- Claim C7 amended-claim witness at a concrete two-article input. -/
theorem postArticlesByType_delay_witness :
    ((postArticlesByType false (fun _ => true) 0 [soloArticle, dupArticle] false).1).getLast? =
      some (Effect.sleep PostDelay) :=
  (postArticlesByType_delay_amended (fun _ => true) 0 [soloArticle, dupArticle] false).2
    (by simp)

set_option maxRecDepth 4000 in
/-- Claim C9, counterexample: a feed article whose title alone is 600
runes renders above 500 runes, is re-rendered without the excerpt — and
the re-rendered post published in its place still exceeds 500 runes. -/
theorem postLengthGuard_cex :
    500 < (RSSNewsTemplate hugeTitleArticle.title hugeTitleArticle.url
      hugeTitleArticle.description).length ∧
    postSingleArticleContent hugeTitleArticle true =
      RSSNewsTemplate hugeTitleArticle.title hugeTitleArticle.url "" ∧
    500 < (postSingleArticleContent hugeTitleArticle true).length := by
  exact ⟨by decide, by decide, by decide⟩

/-- Claim C9 (amended): whenever the rendered feed post exceeds 500 runes
it is re-rendered with the excerpt dropped entirely (not truncated), and
the published re-rendering is at most 500 runes provided the excerpt-free
rendering of title and link fits in 500 runes (the code does not enforce
that bound itself). -/
theorem postSingleArticle_lengthGuard (article : PostedURL)
    (hover : 500 < (RSSNewsTemplate article.title article.url article.description).length) :
    postSingleArticleContent article true =
      RSSNewsTemplate article.title article.url "" ∧
    ((RSSNewsTemplate article.title article.url "").length ≤ 500 →
      (postSingleArticleContent article true).length ≤ 500) := by
  have h1 : postSingleArticleContent article true =
      RSSNewsTemplate article.title article.url "" := by
    simp [postSingleArticleContent, hover]
  exact ⟨h1, fun hbase => h1 ▸ hbase⟩

set_option maxRecDepth 4000 in
/-- Claim C9 amended-claim witness: an excerpt pushing the post to exactly
520 runes is dropped and the published result is at most 500 runes. -/
theorem postSingleArticle_lengthGuard_witness :
    500 < (RSSNewsTemplate excerpt520Article.title excerpt520Article.url
      excerpt520Article.description).length ∧
    postSingleArticleContent excerpt520Article true =
      RSSNewsTemplate excerpt520Article.title excerpt520Article.url "" ∧
    (postSingleArticleContent excerpt520Article true).length ≤ 500 := by
  refine ⟨by decide, ?_, ?_⟩
  · exact (postSingleArticle_lengthGuard excerpt520Article (by decide)).1
  · exact (postSingleArticle_lengthGuard excerpt520Article (by decide)).2 (by decide)

/-- In dry-run mode the posting loop issues only `PostDelay` sleeps. -/
theorem postArticlesByType_dry_sleeps (postOk : String → Bool) (now : Time) :
    ∀ (articles : List PostedURL) (isRss : Bool),
    ∀ e ∈ (postArticlesByType true postOk now articles isRss).1,
      e = Effect.sleep PostDelay := by
  intro articles
  induction articles with
  | nil => intro isRss e he; simp [postArticlesByType] at he
  | cons a rest ih =>
    intro isRss e he
    have : e = Effect.sleep PostDelay ∨
        e ∈ (postArticlesByType true postOk now rest isRss).1 := by
      simpa [postArticlesByType, postSingleArticle, postToMastodonWithContent] using he
    rcases this with h | h
    · exact h
    · exact ih isRss e h

/-- Claim C6, counterexample: in dry-run mode, publishing the daily
summary still issues a pin mutation to the posting service, targeting the
dummy id `"dry-run"` — the dry-run flag does not guard `pinSummaryPosts`. -/
theorem dryRun_pins_cex :
    postPrefectureSummary true true true "ignored" [] [] 0 "2025年10月10日" =
      [Effect.pin "dry-run"] ∧
    Effect.pin "dry-run" ∈
      postPrefectureSummary true true true "ignored" [] [] 0 "2025年10月10日" :=
  ⟨rfl, by decide⟩

/-- Claim C6 (amended): with the dry-run override enabled, every publish
and every save call of the run is a no-op that only logs — the normal-mode
trace contains only the rate-limit sleeps, nothing is published, the
ledger document is not written and keeps its previous content — but pin
and unpin mutations are still issued: the summary path degenerates to
exactly the `pinSummaryPosts` calls on the dummy dry-run id. -/
theorem dryRun_noop_amended (postOk2 unpinOk : Bool) (newStatusID : String)
    (pinnedStatuses : List Status) (stats : List PrefectureCount) (totalPosts : Nat)
    (dateStr : String) (postOracle : String → Bool) (now : Time)
    (loaded scraped : List PostedURL) (extractText : String → String)
    (rssConfig : RSSConfig) (feeds : List (Option (List RSSItem)))
    (trace : List Effect) (ledger : List PostedURL)
    (hrun : runNormalMode true postOracle now loaded scraped extractText rssConfig feeds =
      some (trace, ledger)) :
    postPrefectureSummary true postOk2 unpinOk newStatusID pinnedStatuses stats
      totalPosts dateStr = pinSummaryPosts unpinOk pinnedStatuses "dry-run" ∧
    publishContents trace = [] ∧ saveTargets trace = [] ∧ ledger = loaded := by
  have hkey : ledger = loaded ∧ ∀ e ∈ trace, e = Effect.sleep PostDelay := by
    cases hrss : processRSSNews extractText ((cleanupOldURLs now loaded).map PostedURL.url)
        rssConfig feeds with
    | none =>
      simp only [runNormalMode, hrss] at hrun
      exact Option.noConfusion hrun
    | some rssArticles =>
      simp only [runNormalMode, hrss] at hrun
      by_cases hnz : 0 < (processKumaNews ((cleanupOldURLs now loaded).map PostedURL.url)
          scraped).length ∨ 0 < rssArticles.length
      · rw [if_pos hnz] at hrun
        simp only [if_true] at hrun
        simp only [Option.some.injEq, Prod.mk.injEq] at hrun
        obtain ⟨htrace, hledger⟩ := hrun
        refine ⟨hledger.symm, ?_⟩
        intro e he
        rw [← htrace] at he
        have hsplit : e ∈ (postArticlesByType true postOracle now
            (processKumaNews ((cleanupOldURLs now loaded).map PostedURL.url) scraped)
              false).1 ∨
            e ∈ (postArticlesByType true postOracle now rssArticles true).1 := by
          simpa [postToMastodon, savePostedURLs] using he
        rcases hsplit with h | h
        · exact postArticlesByType_dry_sleeps postOracle now _ false e h
        · exact postArticlesByType_dry_sleeps postOracle now _ true e h
      · rw [if_neg hnz] at hrun
        simp only [Option.some.injEq, Prod.mk.injEq] at hrun
        obtain ⟨htrace, hledger⟩ := hrun
        refine ⟨hledger.symm, ?_⟩
        intro e he
        rw [← htrace] at he
        exact absurd he (List.not_mem_nil e)
  have hsleep := hkey.2
  refine ⟨?_, ?_, ?_, hkey.1⟩
  · simp [postPrefectureSummary, postToMastodonWithContent]
  · simp only [publishContents]
    rw [List.filterMap_eq_nil_iff]
    intro e he
    rw [hsleep e he]
  · simp only [saveTargets]
    rw [List.filterMap_eq_nil_iff]
    intro e he
    rw [hsleep e he]

/-- Claim C6 amended-claim witness at a concrete dry run. -/
theorem dryRun_noop_witness :
    postPrefectureSummary true true true "id1" pinnedFive [] 0 "d" =
      pinSummaryPosts true pinnedFive "dry-run" ∧
    publishContents [Effect.sleep PostDelay] = [] ∧
    saveTargets [Effect.sleep PostDelay] = [] ∧
    ([] : List PostedURL) = [] := by
  exact dryRun_noop_amended true true "id1" pinnedFive [] 0 "d" (fun _ => true) 100
    [] [dupArticle] id sampleRSSConfig [] [Effect.sleep PostDelay] [] rfl

/-- Claim C8: after publishing a daily summary, when the account has 5 or
more pinned posts, exactly one unpin call is issued, targeting a pinned
post of minimal creation time, before the pin of the new summary; with
fewer than 5 pinned posts only the pin is issued. -/
theorem pinSummaryPosts_rotation (pinnedStatuses : List Status) (newStatusID : String) :
    (5 ≤ pinnedStatuses.length →
      ∃ oldest ∈ pinnedStatuses,
        (∀ s ∈ pinnedStatuses, oldest.createdAt ≤ s.createdAt) ∧
        pinSummaryPosts true pinnedStatuses newStatusID =
          [Effect.unpin oldest.id, Effect.pin newStatusID]) ∧
    (pinnedStatuses.length < 5 →
      pinSummaryPosts true pinnedStatuses newStatusID = [Effect.pin newStatusID]) := by
  constructor
  · intro h5
    have hperm := List.perm_insertionSort createdLe pinnedStatuses
    have hsorted := List.sorted_insertionSort createdLe pinnedStatuses
    match hs : List.insertionSort createdLe pinnedStatuses with
    | [] =>
      rw [hs] at hperm
      have hlen := hperm.length_eq
      simp at hlen
      omega
    | oldest :: rest =>
      rw [hs] at hperm hsorted
      refine ⟨oldest, hperm.mem_iff.mp (List.mem_cons_self _ _), ?_, ?_⟩
      · intro s hsmem
        have hs2 : s ∈ oldest :: rest := hperm.mem_iff.mpr hsmem
        rcases List.mem_cons.mp hs2 with heq | hmem
        · rw [heq]
        · exact (List.sorted_cons.mp hsorted).1 s hmem
      · simp [pinSummaryPosts, h5, hs]
  · intro hlt
    have hn : ¬ 5 ≤ pinnedStatuses.length := by omega
    simp [pinSummaryPosts, hn]

/-- Claim C8 witness: with the five concrete pinned posts, the single
oldest-created one (`"p2"`) is unpinned before the new summary is pinned. -/
theorem pinSummaryPosts_rotation_witness :
    ∃ oldest ∈ pinnedFive,
      (∀ s ∈ pinnedFive, oldest.createdAt ≤ s.createdAt) ∧
      pinSummaryPosts true pinnedFive "new-summary" =
        [Effect.unpin oldest.id, Effect.pin "new-summary"] :=
  (pinSummaryPosts_rotation pinnedFive "new-summary").1 (by decide)

/-- `publishContents` distributes over trace concatenation. -/
theorem publishContents_append (t1 t2 : List Effect) :
    publishContents (t1 ++ t2) = publishContents t1 ++ publishContents t2 := by
  simp [publishContents]

/-- The publish calls of a posting-loop trace are exactly the rendered
contents of its articles, in order. -/
theorem publishContents_flatMap (articles : List PostedURL) (isRss : Bool) :
    publishContents (articles.flatMap (fun article =>
      [Effect.publish (postSingleArticleContent article isRss),
       Effect.sleep PostDelay])) =
      articles.map (fun article => postSingleArticleContent article isRss) := by
  induction articles with
  | nil => rfl
  | cons a rest ih =>
    rw [List.flatMap_cons, publishContents_append, ih]
    rfl

/-- Claim C5, counterexample: in a run carrying one scraped article
published at instant 2 and one feed article published at instant 1, the
scraped article is published first — `postToMastodon` posts all
scraped-source articles before any feed article, so the publish sequence
is not in `published_at` order. -/
theorem publish_order_cex :
    processKumaNews [] [kumaLateArticle] = [kumaLateArticle] ∧
    processRSSNews id [] sampleRSSConfig [some [earlyFeedItem]] = some [rssEarlyArticle] ∧
    publishContents (sampleRunC5.getD ([], [])).1 =
      [postSingleArticleContent kumaLateArticle false,
       postSingleArticleContent rssEarlyArticle true] ∧
    rssEarlyArticle.publishedAt < kumaLateArticle.publishedAt ∧
    ¬ List.Sorted pubLe [kumaLateArticle, rssEarlyArticle] := by
  exact ⟨rfl, rfl, rfl, by decide, by decide⟩

/-- Claim C5 (amended): within each source category the publish order is
chronological — both the scraped-source batch and the feed batch are
sorted by `published_at` ascending — but the run publishes the whole
scraped batch before the whole feed batch, regardless of timestamps. -/
theorem publish_order_amended (postOracle : String → Bool) (now : Time)
    (loaded scraped : List PostedURL) (extractText : String → String)
    (rssConfig : RSSConfig) (feeds : List (Option (List RSSItem)))
    (trace : List Effect) (ledger : List PostedURL) (rssArticles : List PostedURL)
    (hrss : processRSSNews extractText ((cleanupOldURLs now loaded).map PostedURL.url)
      rssConfig feeds = some rssArticles)
    (hrun : runNormalMode false postOracle now loaded scraped extractText rssConfig feeds =
      some (trace, ledger)) :
    List.Sorted pubLe
      (processKumaNews ((cleanupOldURLs now loaded).map PostedURL.url) scraped) ∧
    List.Sorted pubLe rssArticles ∧
    publishContents trace =
      (processKumaNews ((cleanupOldURLs now loaded).map PostedURL.url) scraped).map
        (fun article => postSingleArticleContent article false) ++
      rssArticles.map (fun article => postSingleArticleContent article true) := by
  refine ⟨List.sorted_insertionSort pubLe _, ?_, ?_⟩
  · cases hfd : processRSSFeeds extractText rssConfig feeds
        ((cleanupOldURLs now loaded).map PostedURL.url) [] with
    | none =>
      simp only [processRSSNews, hfd] at hrss
      exact Option.noConfusion hrss
    | some res =>
      obtain ⟨map2, arts⟩ := res
      simp only [processRSSNews, hfd] at hrss
      rw [← Option.some.inj hrss]
      exact List.sorted_insertionSort pubLe arts
  · simp only [runNormalMode, hrss] at hrun
    by_cases hnz : 0 < (processKumaNews ((cleanupOldURLs now loaded).map PostedURL.url)
        scraped).length ∨ 0 < rssArticles.length
    · rw [if_pos hnz] at hrun
      simp only [Option.some.injEq, Prod.mk.injEq] at hrun
      obtain ⟨htrace, -⟩ := hrun
      rw [← htrace]
      simp only [postToMastodon]
      rw [publishContents_append, publishContents_append,
        postArticlesByType_trace postOracle now _ false,
        postArticlesByType_trace postOracle now _ true,
        publishContents_flatMap, publishContents_flatMap]
      simp [savePostedURLs, publishContents]
    · rw [if_neg hnz] at hrun
      simp only [Option.some.injEq, Prod.mk.injEq] at hrun
      obtain ⟨htrace, -⟩ := hrun
      push_neg at hnz
      have hk : processKumaNews ((cleanupOldURLs now loaded).map PostedURL.url) scraped = [] :=
        List.length_eq_zero.mp (by omega)
      have hr : rssArticles = [] := List.length_eq_zero.mp (by omega)
      rw [← htrace, hk, hr]
      rfl

/-- Claim C5 amended-claim witness at the concrete two-article run. -/
theorem publish_order_amended_witness :
    List.Sorted pubLe
      (processKumaNews ((cleanupOldURLs 100 []).map PostedURL.url) [kumaLateArticle]) ∧
    List.Sorted pubLe [rssEarlyArticle] ∧
    publishContents ((sampleRunC5.getD ([], [])).1) =
      (processKumaNews ((cleanupOldURLs 100 []).map PostedURL.url) [kumaLateArticle]).map
        (fun article => postSingleArticleContent article false) ++
      [rssEarlyArticle].map (fun article => postSingleArticleContent article true) := by
  exact publish_order_amended (fun _ => true) 100 [] [kumaLateArticle] id sampleRSSConfig
    [some [earlyFeedItem]] (sampleRunC5.getD ([], [])).1 (sampleRunC5.getD ([], [])).2
    [rssEarlyArticle] rfl rfl

/-- Invariant of the feed-item loop: the articles it appends have pairwise
distinct links, each fresh with respect to the incoming dedup map and
drawn from the processed items, and the outgoing map is the incoming map
plus exactly those links. -/
theorem processRSSItems_nodup (extractText : String → String) (rssConfig : RSSConfig) :
    ∀ (items : List RSSItem) (map : List String) (acc : List PostedURL)
      (map2 : List String) (acc2 : List PostedURL),
    processRSSItems extractText rssConfig items map acc = some (map2, acc2) →
    ∃ newArticles : List PostedURL,
      acc2 = acc ++ newArticles ∧
      (newArticles.map PostedURL.url).Nodup ∧
      (∀ u ∈ newArticles.map PostedURL.url, u ∉ map ∧ u ∈ items.map RSSItem.link) ∧
      (∀ u, u ∈ map2 ↔ u ∈ map ∨ u ∈ newArticles.map PostedURL.url) := by
  intro items
  induction items with
  | nil =>
    intro map acc map2 acc2 h
    simp only [processRSSItems, Option.some.injEq, Prod.mk.injEq] at h
    obtain ⟨hm, ha⟩ := h
    exact ⟨[], by simp [← ha], by simp, by simp, by simp [← hm]⟩
  | cons item rest ih =>
    intro map acc map2 acc2 h
    by_cases hlink : item.link = ""
    · rw [processRSSItems, if_pos hlink] at h
      obtain ⟨newArticles, h1, h2, h3, h4⟩ := ih map acc map2 acc2 h
      exact ⟨newArticles, h1, h2,
        fun u hu => ⟨(h3 u hu).1, List.mem_cons_of_mem _ (by simpa using (h3 u hu).2)⟩, h4⟩
    · by_cases hdup : item.link ∈ map
      · rw [processRSSItems, if_neg hlink, if_pos (by simpa using hdup)] at h
        obtain ⟨newArticles, h1, h2, h3, h4⟩ := ih map acc map2 acc2 h
        exact ⟨newArticles, h1, h2,
          fun u hu => ⟨(h3 u hu).1, List.mem_cons_of_mem _ (by simpa using (h3 u hu).2)⟩, h4⟩
      · by_cases hrel : isBearRelatedNews item.title
            (buildRSSDescription extractText item.description) rssConfig = true
        · match hpp : item.publishedParsed with
          | none =>
            rw [processRSSItems, if_neg hlink, if_neg (by simpa using hdup),
              if_pos hrel] at h
            rw [hpp] at h
            exact Option.noConfusion h
          | some ts =>
            rw [processRSSItems, if_neg hlink, if_neg (by simpa using hdup),
              if_pos hrel] at h
            rw [hpp] at h
            obtain ⟨newArticles, h1, h2, h3, h4⟩ := ih _ _ _ _ h
            refine ⟨⟨item.link, item.title, buildRSSDescription extractText item.description, ts, 0⟩ :: newArticles, ?_, ?_, ?_, ?_⟩
            · rw [h1, List.append_assoc]
              rfl
            · rw [List.map_cons, List.nodup_cons]
              refine ⟨?_, h2⟩
              intro hmem
              exact (h3 _ hmem).1 (List.mem_cons_self _ _)
            · intro u hu
              rcases List.mem_cons.mp hu with heq | hmem
              · constructor
                · rw [heq]; exact hdup
                · rw [heq]; exact List.mem_cons_self _ _
              · have := h3 u hmem
                exact ⟨fun hin => this.1 (List.mem_cons_of_mem _ hin),
                  List.mem_cons_of_mem _ this.2⟩
            · intro u
              rw [h4 u]
              constructor
              · rintro (hin | hin)
                · rcases List.mem_cons.mp hin with heq | hin2
                  · right; rw [heq]; exact List.mem_cons_self _ _
                  · left; exact hin2
                · right; exact List.mem_cons_of_mem _ hin
              · rintro (hin | hin)
                · left; exact List.mem_cons_of_mem _ hin
                · rcases List.mem_cons.mp hin with heq | hin2
                  · left; rw [heq]; exact List.mem_cons_self _ _
                  · right; exact hin2
        · rw [processRSSItems, if_neg hlink, if_neg (by simpa using hdup),
            if_neg hrel] at h
          obtain ⟨newArticles, h1, h2, h3, h4⟩ := ih map acc map2 acc2 h
          exact ⟨newArticles, h1, h2,
            fun u hu => ⟨(h3 u hu).1, List.mem_cons_of_mem _ (by simpa using (h3 u hu).2)⟩,
            h4⟩

/-- Invariant of the feed loop, lifted from the item loop: appended
articles have pairwise distinct links, fresh with respect to the incoming
map and drawn from the feeds' links. -/
theorem processRSSFeeds_nodup (extractText : String → String) (rssConfig : RSSConfig) :
    ∀ (feeds : List (Option (List RSSItem))) (map : List String) (acc : List PostedURL)
      (map2 : List String) (acc2 : List PostedURL),
    processRSSFeeds extractText rssConfig feeds map acc = some (map2, acc2) →
    ∃ newArticles : List PostedURL,
      acc2 = acc ++ newArticles ∧
      (newArticles.map PostedURL.url).Nodup ∧
      (∀ u ∈ newArticles.map PostedURL.url, u ∉ map ∧ u ∈ feedLinks feeds) ∧
      (∀ u, u ∈ map2 ↔ u ∈ map ∨ u ∈ newArticles.map PostedURL.url) := by
  intro feeds
  induction feeds with
  | nil =>
    intro map acc map2 acc2 h
    simp only [processRSSFeeds, Option.some.injEq, Prod.mk.injEq] at h
    obtain ⟨hm, ha⟩ := h
    exact ⟨[], by simp [← ha], by simp, by simp, by simp [← hm]⟩
  | cons feed rest ih =>
    intro map acc map2 acc2 h
    match feed with
    | none =>
      rw [processRSSFeeds] at h
      obtain ⟨newArticles, h1, h2, h3, h4⟩ := ih map acc map2 acc2 h
      refine ⟨newArticles, h1, h2, ?_, h4⟩
      intro u hu
      refine ⟨(h3 u hu).1, ?_⟩
      have := (h3 u hu).2
      simpa [feedLinks] using this
    | some items =>
      rw [processRSSFeeds] at h
      cases hit : processRSSItems extractText rssConfig items map acc with
      | none => rw [hit] at h; exact Option.noConfusion h
      | some res =>
        obtain ⟨mapA, accA⟩ := res
        rw [hit] at h
        obtain ⟨new1, g1, g2, g3, g4⟩ :=
          processRSSItems_nodup extractText rssConfig items map acc mapA accA hit
        obtain ⟨new2, k1, k2, k3, k4⟩ := ih mapA accA map2 acc2 h
        refine ⟨new1 ++ new2, ?_, ?_, ?_, ?_⟩
        · rw [k1, g1, List.append_assoc]
        · rw [List.map_append, List.nodup_append]
          refine ⟨g2, k2, ?_⟩
          intro u hu1 hu2
          exact (k3 u hu2).1 ((g4 u).mpr (Or.inr hu1))
        · intro u hu
          rw [List.map_append, List.mem_append] at hu
          rcases hu with hu | hu
          · refine ⟨(g3 u hu).1, ?_⟩
            have := (g3 u hu).2
            simp only [feedLinks, List.filterMap_cons, id, List.flatten, List.map_append,
              List.mem_append]
            left
            simpa using this
          · constructor
            · intro hin
              exact (k3 u hu).1 ((g4 u).mpr (Or.inl hin))
            · have := (k3 u hu).2
              simp only [feedLinks, List.filterMap_cons, id, List.flatten, List.map_append,
                List.mem_append]
              right
              simpa [feedLinks] using this
        · intro u
          rw [k4 u, g4 u, List.map_append, List.mem_append, or_assoc]

/-- The feed adapter's output has pairwise distinct links, each absent
from the ledger-derived dedup map and drawn from the feeds. -/
theorem processRSSNews_nodup (extractText : String → String) (existingURLMap : List String)
    (rssConfig : RSSConfig) (feeds : List (Option (List RSSItem)))
    (rssArticles : List PostedURL)
    (h : processRSSNews extractText existingURLMap rssConfig feeds = some rssArticles) :
    (rssArticles.map PostedURL.url).Nodup ∧
    ∀ u ∈ rssArticles.map PostedURL.url, u ∉ existingURLMap ∧ u ∈ feedLinks feeds := by
  cases hfd : processRSSFeeds extractText rssConfig feeds existingURLMap [] with
  | none =>
    simp only [processRSSNews, hfd] at h
    exact Option.noConfusion h
  | some res =>
    obtain ⟨map2, acc2⟩ := res
    simp only [processRSSNews, hfd] at h
    obtain ⟨newArticles, h1, h2, h3, -⟩ :=
      processRSSFeeds_nodup extractText rssConfig feeds existingURLMap [] map2 acc2 hfd
    rw [List.nil_append] at h1
    rw [← h1] at h2 h3
    have hperm : (rssArticles.map PostedURL.url).Perm (acc2.map PostedURL.url) := by
      rw [← Option.some.inj h]
      exact (List.perm_insertionSort pubLe acc2).map PostedURL.url
    refine ⟨h2.perm hperm.symm, ?_⟩
    intro u hu
    exact h3 u (hperm.mem_iff.mp hu)

/-- The scraped-source adapter's output has pairwise distinct links when
the scraped articles do, each absent from the dedup map and drawn from
the scraped articles. -/
theorem processKumaNews_urls (existingURLMap : List String) (allArticles : List PostedURL)
    (hscraped : (allArticles.map PostedURL.url).Nodup) :
    ((processKumaNews existingURLMap allArticles).map PostedURL.url).Nodup ∧
    ∀ u ∈ (processKumaNews existingURLMap allArticles).map PostedURL.url,
      u ∉ existingURLMap ∧ u ∈ allArticles.map PostedURL.url := by
  have hperm : ((processKumaNews existingURLMap allArticles).map PostedURL.url).Perm
      ((allArticles.filter
        (fun article => !(existingURLMap.contains article.url))).map PostedURL.url) :=
    (List.perm_insertionSort pubLe _).map PostedURL.url
  have hsub : ((allArticles.filter
      (fun article => !(existingURLMap.contains article.url))).map PostedURL.url).Sublist
      (allArticles.map PostedURL.url) :=
    (List.filter_sublist allArticles).map PostedURL.url
  refine ⟨(hsub.nodup hscraped).perm hperm.symm, ?_⟩
  intro u hu
  have hu2 := hperm.mem_iff.mp hu
  obtain ⟨article, hamem, haurl⟩ := List.mem_map.mp hu2
  have hfil := List.mem_filter.mp hamem
  constructor
  · rw [← haurl]
    simpa using hfil.2
  · rw [← haurl]
    exact List.mem_map_of_mem PostedURL.url hfil.1

/-- The urls of the successfully posted articles form a sublist of the
urls of the batch (posting preserves each article's url and order). -/
theorem postArticlesByType_posted_urls (dryRun : Bool) (postOk : String → Bool)
    (now : Time) (articles : List PostedURL) (isRss : Bool) :
    ((postArticlesByType dryRun postOk now articles isRss).2.map PostedURL.url).Sublist
      (articles.map PostedURL.url) := by
  induction articles with
  | nil => simp [postArticlesByType]
  | cons a rest ih =>
    by_cases hok : (postSingleArticle dryRun postOk a isRss).2 = true
    · simp only [postArticlesByType, hok, if_true, List.map_cons]
      exact ih.cons₂ a.url
    · simp only [postArticlesByType, hok, Bool.false_eq_true, if_false, List.map_cons]
      exact ih.cons a.url

/-- Claim C1, counterexample: with an empty (hence url-unique) loaded
ledger, a scrape that lists the same article twice and every publish
succeeding, the persisted ledger contains two entries with equal url —
`processKumaNews` never adds scraped urls to the dedup map, so a
duplicated scraped article survives twice. -/
theorem ledger_unique_cex :
    (([] : List PostedURL).map PostedURL.url).Nodup ∧
    ¬ ((((runNormalMode false (fun _ => true) 100 [] [dupArticle, dupArticle] id
        sampleRSSConfig []).getD ([], [])).2.map PostedURL.url).Nodup) :=
  ⟨by decide, by decide⟩

/-- Claim C1 (amended): after the run's successfully published records are
appended and saved, the persisted ledger contains no two entries with
equal url, provided the loaded ledger contained no duplicate urls AND the
scraped articles of the run have pairwise distinct urls, none of which
equals a link of any fetched feed item (the code deduplicates against the
ledger and within the feed batch, but not among scraped articles or
between the two sources). -/
theorem ledger_unique_amended (postOracle : String → Bool) (now : Time)
    (loaded scraped : List PostedURL) (extractText : String → String)
    (rssConfig : RSSConfig) (feeds : List (Option (List RSSItem)))
    (trace : List Effect) (ledger : List PostedURL)
    (hload : (loaded.map PostedURL.url).Nodup)
    (hscraped : (scraped.map PostedURL.url).Nodup)
    (hdisj : ∀ u ∈ scraped.map PostedURL.url, u ∉ feedLinks feeds)
    (hrun : runNormalMode false postOracle now loaded scraped extractText rssConfig feeds =
      some (trace, ledger)) :
    (ledger.map PostedURL.url).Nodup := by
  have hexist : ((cleanupOldURLs now loaded).map PostedURL.url).Nodup :=
    (((List.filter_sublist loaded).map PostedURL.url).nodup hload :
      (((loaded.filter _).map PostedURL.url).Nodup))
  cases hrss : processRSSNews extractText ((cleanupOldURLs now loaded).map PostedURL.url)
      rssConfig feeds with
  | none =>
    simp only [runNormalMode, hrss] at hrun
    exact Option.noConfusion hrun
  | some rssArticles =>
    simp only [runNormalMode, hrss] at hrun
    by_cases hnz : 0 < (processKumaNews ((cleanupOldURLs now loaded).map PostedURL.url)
        scraped).length ∨ 0 < rssArticles.length
    · rw [if_pos hnz] at hrun
      simp only [Bool.false_eq_true, if_false, Option.some.injEq, Prod.mk.injEq] at hrun
      obtain ⟨-, hledger⟩ := hrun
      rw [← hledger, List.map_append, List.nodup_append]
      obtain ⟨hknodup, hkmem⟩ := processKumaNews_urls
        ((cleanupOldURLs now loaded).map PostedURL.url) scraped hscraped
      obtain ⟨hrnodup, hrmem⟩ := processRSSNews_nodup extractText
        ((cleanupOldURLs now loaded).map PostedURL.url) rssConfig feeds rssArticles hrss
      have hksub := postArticlesByType_posted_urls false postOracle now
        (processKumaNews ((cleanupOldURLs now loaded).map PostedURL.url) scraped) false
      have hrsub := postArticlesByType_posted_urls false postOracle now rssArticles true
      refine ⟨hexist, ?_, ?_⟩
      · simp only [postToMastodon, List.map_append, List.nodup_append]
        refine ⟨hksub.nodup hknodup, hrsub.nodup hrnodup, ?_⟩
        intro u hu1 hu2
        have huk := hksub.subset hu1
        have hur := hrsub.subset hu2
        exact hdisj u (hkmem u huk).2 (hrmem u hur).2
      · intro u hu hu2
        simp only [postToMastodon, List.map_append, List.mem_append] at hu2
        rcases hu2 with hu2 | hu2
        · exact (hkmem u (hksub.subset hu2)).1 hu
        · exact (hrmem u (hrsub.subset hu2)).1 hu
    · rw [if_neg hnz] at hrun
      simp only [Option.some.injEq, Prod.mk.injEq] at hrun
      rw [← hrun.2]
      exact hload

/-- Claim C1 amended-claim witness at the concrete two-source run. -/
theorem ledger_unique_witness :
    (((sampleRunC5.getD ([], [])).2).map PostedURL.url).Nodup := by
  exact ledger_unique_amended (fun _ => true) 100 [] [kumaLateArticle] id sampleRSSConfig
    [some [earlyFeedItem]] (sampleRunC5.getD ([], [])).1 (sampleRunC5.getD ([], [])).2
    (by decide) (by decide) (by decide) rfl

/-- A non-empty extraction result is one of the 47 prefecture names. -/
theorem extractPrefecture_mem (text : String) (h : extractPrefecture text ≠ "") :
    extractPrefecture text ∈ prefectures := by
  unfold extractPrefecture at *
  cases hf : prefectures.find? (fun prefecture => strContains text prefecture) with
  | none => rw [hf] at h; exact absurd rfl h
  | some p => exact List.mem_of_find?_eq_some hf

/-- `tallyInc` preserves positive counts and prefecture-list membership of
all keys. -/
theorem tallyInc_inv (p : String) (hp : p ∈ prefectures) :
    ∀ (m : List PrefectureCount),
    (∀ s ∈ m, 0 < s.count ∧ s.prefecture ∈ prefectures) →
    ∀ s ∈ tallyInc m p, 0 < s.count ∧ s.prefecture ∈ prefectures := by
  intro m
  induction m with
  | nil =>
    intro _ s hs
    simp only [tallyInc, List.mem_singleton] at hs
    subst hs
    exact ⟨zero_lt_one, hp⟩
  | cons pc rest ih =>
    intro hm s hs
    by_cases hkey : pc.prefecture = p
    · rw [tallyInc, if_pos hkey] at hs
      rcases List.mem_cons.mp hs with heq | hmem
      · subst heq
        have hpc := hm pc (List.mem_cons_self _ _)
        refine ⟨?_, hpc.2⟩
        have h1 := hpc.1
        show 0 < pc.count + 1
        omega
      · exact hm s (List.mem_cons_of_mem _ hmem)
    · rw [tallyInc, if_neg hkey] at hs
      rcases List.mem_cons.mp hs with heq | hmem
      · subst heq
        exact hm s (List.mem_cons_self _ _)
      · exact ih (fun t ht => hm t (List.mem_cons_of_mem _ ht)) s hmem

/-- The locations fold keeps every tallied entry positively counted and
keyed by a prefecture name. -/
theorem aggregateStep_fold_inv (locations : List String) :
    ∀ (m : List PrefectureCount) (c : Int),
    (∀ s ∈ m, 0 < s.count ∧ s.prefecture ∈ prefectures) →
    ∀ s ∈ (locations.foldl aggregateStep (m, c)).1,
      0 < s.count ∧ s.prefecture ∈ prefectures := by
  induction locations with
  | nil => intro m c hm; exact hm
  | cons loc rest ih =>
    intro m c hm
    rw [List.foldl_cons]
    by_cases hcls : extractPrefecture loc.trim = ""
    · rw [show aggregateStep (m, c) loc = (m, c + 1) by simp [aggregateStep, hcls]]
      exact ih m (c + 1) hm
    · rw [show aggregateStep (m, c) loc = (tallyInc m (extractPrefecture loc.trim), c) by
        simp [aggregateStep, hcls]]
      exact ih _ c (tallyInc_inv _ (extractPrefecture_mem _ hcls) m hm)

/-- Entries of the unclassified bucket leave the rank bookkeeping
untouched and are rendered without a number. -/
theorem rankAnnotate_other (O : List PrefectureCount)
    (hO : ∀ s ∈ O, s.prefecture = OtherPrefecture) :
    ∀ (pos currentRank : Nat) (prevCount : Int),
    rankAnnotate O pos currentRank prevCount = O.map (fun s => (none, s)) := by
  induction O with
  | nil => intro pos cr pc; rfl
  | cons o rest ih =>
    intro pos cr pc
    rw [rankAnnotate, if_pos (hO o (List.mem_cons_self _ _))]
    rw [ih (fun s hs => hO s (List.mem_cons_of_mem _ hs)) (pos + 1) cr pc]
    rfl

/-- The lines built by the `formatPrefectureStats` loop are exactly the
renderings of the rank-annotated entries. -/
theorem formatStatsLoop_eq (stats : List PrefectureCount) :
    ∀ (lines : List String) (currentRank : Nat) (prevCount : Int),
    formatStatsLoop stats lines currentRank prevCount =
      lines ++ (rankAnnotate stats lines.length currentRank prevCount).map
        renderRankedLine := by
  induction stats with
  | nil => intro lines cr pc; simp [formatStatsLoop, rankAnnotate]
  | cons stat rest ih =>
    intro lines cr pc
    by_cases hother : stat.prefecture = OtherPrefecture
    · rw [formatStatsLoop, if_pos hother, rankAnnotate, if_pos hother, ih]
      simp [List.append_assoc, renderRankedLine]
    · rw [formatStatsLoop, if_neg hother, rankAnnotate, if_neg hother, ih]
      simp [List.append_assoc, renderRankedLine]

/-- Unfolding of `rankAnnotate` on a ranked (non-unclassified) head. -/
theorem rankAnnotate_cons_ranked (stat : PrefectureCount) (rest : List (PrefectureCount))
    (pos currentRank : Nat) (prevCount : Int)
    (h : stat.prefecture ≠ OtherPrefecture) :
    rankAnnotate (stat :: rest) pos currentRank prevCount =
      (some (if prevCount ≠ -1 ∧ stat.count < prevCount then pos + 1 else currentRank),
        stat) ::
        rankAnnotate rest (pos + 1)
          (if prevCount ≠ -1 ∧ stat.count < prevCount then pos + 1 else currentRank)
          stat.count := by
  rw [rankAnnotate, if_neg h]

/-- In a `Pairwise R` list, every element is the last one or relates to
it. -/
theorem pairwise_getLast {α : Type} {R : α → α → Prop} :
    ∀ (l : List α) (x : α), List.Pairwise R l → l.getLast? = some x →
    ∀ a ∈ l, a = x ∨ R a x := by
  intro l
  induction l with
  | nil => intro x _ hx; exact absurd hx (by simp)
  | cons b rest ih =>
    intro x hp hx a ha
    cases rest with
    | nil =>
      have hbx : b = x := by simpa using hx
      have hab : a = b := by simpa using ha
      exact Or.inl (hab.trans hbx)
    | cons c rest2 =>
      have hx2 : (c :: rest2).getLast? = some x := by simpa using hx
      rcases List.mem_cons.mp ha with heq | hmem
      · subst heq
        right
        have hxmem : x ∈ c :: rest2 := List.mem_of_mem_getLast? hx2
        exact (List.pairwise_cons.mp hp).1 x hxmem
      · exact ih x (List.pairwise_cons.mp hp).2 hx2 a hmem

/-- Core invariant of the `formatPrefectureStats` rank bookkeeping: on a
count-descending classified list followed by unclassified entries, the
loop assigns each classified entry its competition rank (one plus the
number of classified entries with a strictly greater count) and leaves
unclassified entries unnumbered. -/
theorem rankAnnotate_aux (C O : List PrefectureCount)
    (hsorted : List.Pairwise (fun a b => b.count ≤ a.count) C)
    (hpos : ∀ s ∈ C, 0 ≤ s.count)
    (hno : ∀ s ∈ C, s.prefecture ≠ OtherPrefecture)
    (hO : ∀ s ∈ O, s.prefecture = OtherPrefecture) :
    ∀ (post pre : List PrefectureCount) (currentRank : Nat) (prevCount : Int),
    C = pre ++ post →
    (pre = [] → currentRank = 1 ∧ prevCount = -1) →
    (∀ lastStat, pre.getLast? = some lastStat →
      prevCount = lastStat.count ∧ currentRank = competitionRank C lastStat) →
    rankAnnotate (post ++ O) pre.length currentRank prevCount =
      post.map (fun s => (some (competitionRank C s), s)) ++
        O.map (fun s => (none, s)) := by
  intro post
  induction post with
  | nil =>
    intro pre cr pc hC hpre hlast
    rw [List.nil_append, rankAnnotate_other O hO]
    simp
  | cons stat rest ih =>
    intro pre cr pc hC hpre hlast
    have hstatmem : stat ∈ C := by
      rw [hC]; exact List.mem_append.mpr (Or.inr (List.mem_cons_self _ _))
    have hnother := hno stat hstatmem
    have hs2 : List.Pairwise (fun a b => b.count ≤ a.count) (pre ++ stat :: rest) := by
      rw [← hC]; exact hsorted
    have hparts := List.pairwise_append.mp hs2
    rw [List.cons_append, rankAnnotate_cons_ranked stat (rest ++ O) pre.length cr pc hnother]
    have hrank : (if pc ≠ -1 ∧ stat.count < pc then pre.length + 1 else cr) =
        competitionRank C stat := by
      cases hgl : pre.getLast? with
      | none =>
        have hpe : pre = [] := by
          cases pre with
          | nil => rfl
          | cons p pre2 =>
            have hnn := List.getLast?_isSome.mpr (List.cons_ne_nil p pre2)
            rw [hgl] at hnn
            exact absurd hnn (by simp)
        obtain ⟨hcr, hpc⟩ := hpre hpe
        subst hcr
        subst hpc
        rw [if_neg (by simp)]
        have hCc : C = stat :: rest := by rw [hC, hpe]; rfl
        have hz : C.countP (fun t => stat.count < t.count) = 0 := by
          rw [List.countP_eq_zero]
          intro a ha
          rw [hCc] at ha
          rcases List.mem_cons.mp ha with heq | hmem
          · subst heq; simp
          · have hle : a.count ≤ stat.count := by
              have hps : List.Pairwise (fun a b => b.count ≤ a.count) (stat :: rest) := by
                rw [← hCc]; exact hsorted
              exact (List.pairwise_cons.mp hps).1 a hmem
            simp only [decide_eq_true_eq]
            omega
        simp [competitionRank, hz]
      | some lastStat =>
        obtain ⟨hpc, hcr⟩ := hlast lastStat hgl
        have hlastpre : lastStat ∈ pre := List.mem_of_mem_getLast? hgl
        have hlastmem : lastStat ∈ C := by
          rw [hC]; exact List.mem_append.mpr (Or.inl hlastpre)
        have hpcpos : 0 ≤ lastStat.count := hpos lastStat hlastmem
        have hstatle : stat.count ≤ lastStat.count :=
          hparts.2.2 lastStat hlastpre stat (List.mem_cons_self _ _)
        by_cases hlt : stat.count < pc
        · rw [if_pos ⟨by omega, hlt⟩]
          have hall : ∀ a ∈ pre, stat.count < a.count := by
            intro a ha
            rcases pairwise_getLast pre lastStat hparts.1 hgl a ha with heq | hle
            · rw [heq]; omega
            · omega
          have hnone : ∀ a ∈ stat :: rest, ¬ stat.count < a.count := by
            intro a ha
            rcases List.mem_cons.mp ha with heq | hmem
            · subst heq; exact lt_irrefl _
            · have hle : a.count ≤ stat.count :=
                (List.pairwise_cons.mp hparts.2.1).1 a hmem
              omega
          have hcp : C.countP (fun t => stat.count < t.count) = pre.length := by
            rw [hC, List.countP_append]
            have h1 : pre.countP (fun t => stat.count < t.count) = pre.length := by
              rw [List.countP_eq_length]
              intro a ha
              simp only [decide_eq_true_eq]
              exact hall a ha
            have h2 : (stat :: rest).countP (fun t => stat.count < t.count) = 0 := by
              rw [List.countP_eq_zero]
              intro a ha
              simp only [decide_eq_true_eq]
              exact hnone a ha
            rw [h1, h2]
            omega
          simp only [competitionRank, hcp]
          omega
        · rw [if_neg (by rintro ⟨-, h⟩; exact hlt h)]
          have hEq : stat.count = lastStat.count := by omega
          rw [hcr]
          simp only [competitionRank, hEq]
    rw [hrank]
    have hrec := ih (pre ++ [stat]) (competitionRank C stat) stat.count
      (by rw [hC, List.append_assoc]; rfl)
      (by intro habs; exact absurd habs (by simp))
      (by
        intro lastStat hls
        rw [List.getLast?_concat] at hls
        obtain rfl := Option.some.inj hls
        exact ⟨rfl, rfl⟩)
    rw [List.length_append, List.length_singleton] at hrec
    rw [hrec]
    simp

/-- Competition ranking over a sorted classified list with a trailing
unclassified bucket. -/
theorem rankAnnotate_competition (C O : List PrefectureCount)
    (hsorted : List.Pairwise (fun a b => b.count ≤ a.count) C)
    (hpos : ∀ s ∈ C, 0 ≤ s.count)
    (hno : ∀ s ∈ C, s.prefecture ≠ OtherPrefecture)
    (hO : ∀ s ∈ O, s.prefecture = OtherPrefecture) :
    rankAnnotate (C ++ O) 0 1 (-1) =
      C.map (fun s => (some (competitionRank C s), s)) ++
        O.map (fun s => (none, s)) :=
  rankAnnotate_aux C O hsorted hpos hno hO C [] 1 (-1) rfl
    (fun _ => ⟨rfl, rfl⟩) (fun lastStat hl => absurd hl (by simp))

/-- Claim C3: for every multiset of per-post region classifications, the
aggregation output lists the classified regions sorted by count
descending with ties broken by region name ascending (`statLe`), a
permutation of the tally; the formatted listing numbers them by
competition ranking — each classified entry's number is one plus the
number of classified entries with a strictly greater count, so tied
entries share a rank and the next distinct count resumes at its 1-based
position — and the unclassified bucket, when non-empty, is appended last,
rendered without a rank number and excluded from the rank computation. -/
theorem aggregatePrefectures_ranking (locations : List String) :
    ∃ ranked : List PrefectureCount, ∃ otherCount : Int,
      ranked.Perm (locations.foldl aggregateStep ([], 0)).1 ∧
      List.Sorted statLe ranked ∧
      (∀ s ∈ ranked, s.prefecture ≠ OtherPrefecture) ∧
      aggregatePrefectures locations =
        ranked ++ (if 0 < otherCount then
          [{ prefecture := OtherPrefecture, count := otherCount }] else []) ∧
      rankAnnotate (aggregatePrefectures locations) 0 1 (-1) =
        ranked.map (fun s => (some (competitionRank ranked s), s)) ++
          (if 0 < otherCount then
            [((none : Option Nat),
              ({ prefecture := OtherPrefecture, count := otherCount } : PrefectureCount))]
          else []) ∧
      formatPrefectureStats (aggregatePrefectures locations) =
        String.intercalate "\n"
          ((rankAnnotate (aggregatePrefectures locations) 0 1 (-1)).map
            renderRankedLine) := by
  have hinv : ∀ s ∈ (locations.foldl aggregateStep ([], 0)).1,
      0 < s.count ∧ s.prefecture ∈ prefectures :=
    aggregateStep_fold_inv locations [] 0
      (fun t ht => absurd ht (List.not_mem_nil t))
  have hperm := List.perm_insertionSort statLe (locations.foldl aggregateStep ([], 0)).1
  have hsorted := List.sorted_insertionSort statLe (locations.foldl aggregateStep ([], 0)).1
  have hno : ∀ s ∈ List.insertionSort statLe (locations.foldl aggregateStep ([], 0)).1,
      s.prefecture ≠ OtherPrefecture := by
    intro s hs heq
    have hmem := hperm.mem_iff.mp hs
    have h2 := (hinv s hmem).2
    rw [heq] at h2
    exact absurd h2 (by decide)
  have hpos : ∀ s ∈ List.insertionSort statLe (locations.foldl aggregateStep ([], 0)).1,
      0 ≤ s.count :=
    fun s hs => le_of_lt (hinv s (hperm.mem_iff.mp hs)).1
  have hdesc : List.Pairwise (fun a b => b.count ≤ a.count)
      (List.insertionSort statLe (locations.foldl aggregateStep ([], 0)).1) := by
    refine hsorted.imp ?_
    intro a b hab
    rcases hab with h | ⟨he, -⟩
    · exact le_of_lt h
    · exact le_of_eq he.symm
  have hOpart : ∀ s ∈ (if 0 < (locations.foldl aggregateStep ([], 0)).2 then
      [{ prefecture := OtherPrefecture, count := (locations.foldl aggregateStep ([], 0)).2 }]
      else ([] : List PrefectureCount)), s.prefecture = OtherPrefecture := by
    intro s hs
    by_cases h0 : 0 < (locations.foldl aggregateStep ([], 0)).2
    · rw [if_pos h0] at hs
      rw [List.mem_singleton.mp hs]
    · rw [if_neg h0] at hs
      exact absurd hs (List.not_mem_nil s)
  have hagg : aggregatePrefectures locations =
      List.insertionSort statLe (locations.foldl aggregateStep ([], 0)).1 ++
        (if 0 < (locations.foldl aggregateStep ([], 0)).2 then
          [{ prefecture := OtherPrefecture,
             count := (locations.foldl aggregateStep ([], 0)).2 }]
        else []) := by
    simp only [aggregatePrefectures]
    by_cases h0 : 0 < (locations.foldl aggregateStep ([], 0)).2
    · rw [if_pos h0, if_pos h0]
    · rw [if_neg h0, if_neg h0, List.append_nil]
  have hrank := rankAnnotate_competition
    (List.insertionSort statLe (locations.foldl aggregateStep ([], 0)).1)
    (if 0 < (locations.foldl aggregateStep ([], 0)).2 then
      [{ prefecture := OtherPrefecture, count := (locations.foldl aggregateStep ([], 0)).2 }]
    else []) hdesc hpos hno hOpart
  refine ⟨List.insertionSort statLe (locations.foldl aggregateStep ([], 0)).1,
    (locations.foldl aggregateStep ([], 0)).2, hperm, hsorted, hno, hagg, ?_, ?_⟩
  · rw [hagg, hrank]
    by_cases h0 : 0 < (locations.foldl aggregateStep ([], 0)).2
    · rw [if_pos h0, if_pos h0]
      rfl
    · rw [if_neg h0, if_neg h0]
      rfl
  · simp only [formatPrefectureStats]
    rw [formatStatsLoop_eq]
    rfl
